import Mathlib

/-!
Verification of `bin/join_junctions.py` (the splice-junction pooling engine).

The script reads junction evidence files line by line, parses each line into
nine whitespace-delimited fields, filters records by junction length and by the
annotated flag, accumulates records into an insertion-ordered mapping keyed by
the string `chr:start-end:strand`, and finally writes every pooled entry whose
unique coverage reaches a threshold.

The embedding below mirrors the Python line by line:
* `pySplit` models `str.split()` (split on whitespace runs, dropping empties;
  the preceding `strip()` is subsumed by it),
* `pyInt?` models `int()` on the ASCII decimal strings that occur in these
  files (optional sign followed by digits); failure corresponds to a raised
  `ValueError`, which aborts the whole run,
* `parseFields` models the per-line control flow of `read_junctions`
  (the `len(fields) < 8` guard, the 9-way tuple unpacking — which raises for
  any other field count — the length filter, the annotated filter and the
  integer conversions),
* `insertRecord` models the accumulator update (`dict` with insertion order),
* `ingestLines` / `read_junctions` model the file loop, and
* `_write_junctions` models the output loop (the emitted lines, in order).
-/

/-- Model of Python `str.split()` on a character list: split on runs of
whitespace, discarding empty tokens. The second argument accumulates the
current token in reverse. -/
def splitWsAux : List Char → List Char → List String
  | [], acc => if acc.isEmpty then [] else [String.mk acc.reverse]
  | c :: cs, acc =>
    if c.isWhitespace then
      if acc.isEmpty then splitWsAux cs []
      else String.mk acc.reverse :: splitWsAux cs []
    else splitWsAux cs (c :: acc)

/-- Model of Python `line.strip().split()`: whitespace-delimited tokens.
`strip()` only removes leading/trailing whitespace, which `split()` ignores
anyway, so the composition is whitespace splitting. -/
def pySplit (s : String) : List String :=
  splitWsAux s.data []

/-- Decimal value of a digit list (most significant first). -/
def digitsVal (l : List Char) : Nat :=
  l.foldl (fun acc c => acc * 10 + (c.toNat - 48)) 0

/-- Model of Python `int()` on the field strings of these files: an optional
sign followed by one or more ASCII digits parses to the denoted integer
(leading zeros allowed, as in `int("0100") == 100`); anything else raises
`ValueError`, modelled as `none`. -/
def pyInt? (s : String) : Option Int :=
  match s.data with
  | [] => none
  | '-' :: rest =>
    if !rest.isEmpty && rest.all Char.isDigit then some (-(digitsVal rest : Int)) else none
  | '+' :: rest =>
    if !rest.isEmpty && rest.all Char.isDigit then some ((digitsVal rest : Int)) else none
  | l =>
    if l.all Char.isDigit then some ((digitsVal l : Int)) else none

/-- An accepted junction record, as stored in the accumulator: the five text
fields are kept verbatim as strings, the three counters as integers (the
`annotated` field is consumed by the filter and not stored). -/
structure Junction where
  chr : String
  start : String
  «end» : String
  strand : String
  splice_sites : String
  coverage : Int
  multimap_coverage : Int
  alignment_overhang : Int
deriving DecidableEq

/-- Outcome of processing one input line in `read_junctions`:
`skip` models `continue`, `err` models an uncaught `ValueError`
(which aborts the run), `record` is an accepted record. -/
inductive LineResult where
  | skip : LineResult
  | err : LineResult
  | record : Junction → LineResult
deriving DecidableEq

/-- The per-line control flow of `read_junctions`, applied to the
whitespace-split fields of one line:
1. `if len(fields) < 8: continue`;
2. unpacking `(chr, start, end, strand, splice_sites, annotated, coverage,
   multimap_coverage, alignment_overhang) = fields` raises unless there are
   exactly 9 fields;
3. `int(end) - int(start) < min_junction_length` skips the line (either
   conversion failing raises);
4. `int(annotated) == 1` skips the line;
5. the remaining three fields are converted with `int` (in both dict branches),
   raising on failure, and the accepted record is produced. -/
def parseFields (min_junction_length : Int) (fields : List String) : LineResult :=
  if fields.length < 8 then .skip
  else
    match fields with
    | [chr, start, «end», strand, splice_sites, annotated,
       coverage, multimap_coverage, alignment_overhang] =>
      match pyInt? «end», pyInt? start with
      | some e, some s =>
        if e - s < min_junction_length then .skip
        else
          match pyInt? annotated with
          | some a =>
            if a = 1 then .skip
            else
              match pyInt? coverage, pyInt? multimap_coverage, pyInt? alignment_overhang with
              | some c, some m, some o =>
                .record ⟨chr, start, «end», strand, splice_sites, c, m, o⟩
              | _, _, _ => .err
          | none => .err
      | _, _ => .err
    | _ => .err

/-- The accumulator: a `dict` keyed by formatted key string, modelled as an
insertion-ordered association list (keys are unique, see `nodup_buildHash`). -/
abbrev JunctionHash := List (String × Junction)

/-- The dict key `f"{chr}:{start}-{end}:{strand}"`, built from the verbatim
text fields. -/
def keyOf (r : Junction) : String :=
  r.chr ++ ":" ++ r.start ++ "-" ++ r.«end» ++ ":" ++ r.strand

/-- The merge applied when a key is seen again: coverages add, overhang takes
the max, all text fields (including `splice_sites`) keep their stored,
first-seen values. -/
def mergeJunction (old new : Junction) : Junction :=
  { old with
    coverage := old.coverage + new.coverage
    multimap_coverage := old.multimap_coverage + new.multimap_coverage
    alignment_overhang := max old.alignment_overhang new.alignment_overhang }

/-- Python dict lookup on the association list (first match; keys are unique
in every accumulator the program builds). -/
def lookupKey : JunctionHash → String → Option Junction
  | [], _ => none
  | kv :: rest, k => if kv.fst = k then some kv.snd else lookupKey rest k

/-- One accumulator update: `if key in accumulator` merge in place, else
append the new entry (Python dicts preserve insertion order). -/
def insertRecord (acc : JunctionHash) (r : Junction) : JunctionHash :=
  match lookupKey acc (keyOf r) with
  | some _ => acc.map (fun kv => if kv.fst = keyOf r then (kv.fst, mergeJunction kv.snd r) else kv)
  | none => acc ++ [(keyOf r, r)]

/-- The line loop of `read_junctions` over already-split lines: `skip` lines
are passed over, an `err` line aborts the run with the exception. -/
def ingestLines (min_junction_length : Int) : JunctionHash → List (List String) → Except Unit JunctionHash
  | acc, [] => .ok acc
  | acc, fields :: rest =>
    match parseFields min_junction_length fields with
    | .skip => ingestLines min_junction_length acc rest
    | .err => .error ()
    | .record r => ingestLines min_junction_length (insertRecord acc r) rest

/-- Model of `read_junctions(junctions, min_junction_length)`: each file is its list of
raw text lines; files are consumed in order, lines in order within a file. -/
def read_junctions (junctions : List (List String)) (min_junction_length : Int) :
    Except Unit JunctionHash :=
  ingestLines min_junction_length [] (junctions.flatten.map pySplit)

/-- The output line written for one surviving entry: the stored text fields
verbatim, the annotated flag hardcoded to `1`, and the pooled counters. -/
def formatLine (v : Junction) : String :=
  v.chr ++ "\t" ++ v.start ++ "\t" ++ v.«end» ++ "\t" ++ v.strand ++ "\t" ++
  v.splice_sites ++ "\t" ++ "1" ++ "\t" ++ toString v.coverage ++ "\t" ++
  toString v.multimap_coverage ++ "\t" ++ toString v.alignment_overhang

/-- Model of `_write_junctions(junctions, outdir, min_junction_coverage)`: iterate the
mapping in insertion order, `continue` past entries with
`coverage < min_junction_coverage`, write one line for each survivor.
The result is the list of written lines, in order. -/
def _write_junctions (junctions : JunctionHash) (min_junction_coverage : Int) : List String :=
  junctions.filterMap fun kv =>
    if kv.snd.coverage < min_junction_coverage then none else some (formatLine kv.snd)

/-- Model of `run(args)`: read all junction files, then write the filtered table.
An uncaught exception in `read_junctions` aborts before anything is written. -/
def run (junction_files : List (List String)) (min_junction_length min_junction_coverage : Int) :
    Except Unit (List String) :=
  match read_junctions junction_files min_junction_length with
  | .error e => .error e
  | .ok m => .ok (_write_junctions m min_junction_coverage)

/-! ### Derived notions used to state and prove properties -/

/-- The records the parser accepts from a list of split lines, in order. -/
def acceptedRecords (min_junction_length : Int) (lines : List (List String)) : List Junction :=
  lines.filterMap fun fields =>
    match parseFields min_junction_length fields with
    | .record r => some r
    | _ => none

/-- The accumulator obtained by ingesting a list of accepted records in order,
starting from the empty mapping. -/
def buildHash (records : List Junction) : JunctionHash :=
  records.foldl insertRecord []

/-- The three pooled counters of a stored entry. -/
def countersOf (v : Junction) : Int × Int × Int :=
  (v.coverage, v.multimap_coverage, v.alignment_overhang)

/-- The five verbatim text fields of a stored entry. -/
def textOf (v : Junction) : String × String × String × String × String :=
  (v.chr, v.start, v.«end», v.strand, v.splice_sites)

/-- Running maximum over an optional accumulator. -/
def maxOpt (o : Option Int) (x : Int) : Option Int :=
  match o with
  | none => some x
  | some m => some (max m x)

/-- Maximum of a list of integers, `none` on the empty list. -/
def listMax (l : List Int) : Option Int :=
  l.foldl maxOpt none

/-- The accepted records whose dict key is `k`, in arrival order. -/
def keyRecords (records : List Junction) (k : String) : List Junction :=
  records.filter fun r => keyOf r == k

/-- Reference aggregate for key `k` over a record list: `none` when no record
has key `k`, otherwise the summed coverages and the maximal overhang. -/
def keyAgg (records : List Junction) (k : String) : Option (Int × Int × Int) :=
  match listMax ((keyRecords records k).map Junction.alignment_overhang) with
  | none => none
  | some m =>
    some (((keyRecords records k).map Junction.coverage).sum,
          ((keyRecords records k).map Junction.multimap_coverage).sum, m)

/-! ### Lemmas about lookup and insertion -/

theorem lookupKey_append_singleton_ne (acc : JunctionHash) (k' k : String) (v : Junction)
    (h : k' ≠ k) : lookupKey (acc ++ [(k', v)]) k = lookupKey acc k := by
  induction acc with
  | nil => simp [lookupKey, h]
  | cons kv rest ih =>
    simp only [List.cons_append, lookupKey]
    split
    · rfl
    · exact ih

theorem lookupKey_append_singleton_none (acc : JunctionHash) (k : String) (v : Junction)
    (h : lookupKey acc k = none) : lookupKey (acc ++ [(k, v)]) k = some v := by
  induction acc with
  | nil => simp [lookupKey]
  | cons kv rest ih =>
    simp only [lookupKey] at h
    simp only [List.cons_append, lookupKey]
    split
    · rename_i hfst
      rw [if_pos hfst] at h
      exact absurd h (by simp)
    · rename_i hfst
      rw [if_neg hfst] at h
      exact ih h

theorem lookupKey_mergeMap_ne (acc : JunctionHash) (r : Junction) (k : String)
    (h : keyOf r ≠ k) :
    lookupKey (acc.map fun kv => if kv.fst = keyOf r then (kv.fst, mergeJunction kv.snd r) else kv) k
      = lookupKey acc k := by
  induction acc with
  | nil => rfl
  | cons kv rest ih =>
    by_cases hkv : kv.fst = keyOf r
    · simp only [List.map_cons, if_pos hkv, lookupKey]
      rw [if_neg (by rw [hkv]; exact h), if_neg (by rw [hkv]; exact h)]
      exact ih
    · simp only [List.map_cons, if_neg hkv, lookupKey]
      by_cases hk : kv.fst = k
      · rw [if_pos hk, if_pos hk]
      · rw [if_neg hk, if_neg hk]
        exact ih

theorem lookupKey_mergeMap_some (acc : JunctionHash) (r v : Junction)
    (h : lookupKey acc (keyOf r) = some v) :
    lookupKey (acc.map fun kv => if kv.fst = keyOf r then (kv.fst, mergeJunction kv.snd r) else kv)
        (keyOf r) = some (mergeJunction v r) := by
  induction acc with
  | nil => simp [lookupKey] at h
  | cons kv rest ih =>
    simp only [lookupKey] at h
    by_cases hkv : kv.fst = keyOf r
    · rw [if_pos hkv] at h
      simp only [Option.some.injEq] at h
      simp only [List.map_cons, if_pos hkv, lookupKey, if_pos hkv, h]
    · rw [if_neg hkv] at h
      simp only [List.map_cons, if_neg hkv, lookupKey, if_neg hkv]
      exact ih h

theorem lookupKey_insertRecord_ne (acc : JunctionHash) (r : Junction) (k : String)
    (h : keyOf r ≠ k) : lookupKey (insertRecord acc r) k = lookupKey acc k := by
  unfold insertRecord
  cases hl : lookupKey acc (keyOf r) with
  | none => exact lookupKey_append_singleton_ne acc _ k r h
  | some v => exact lookupKey_mergeMap_ne acc r k h

theorem lookupKey_insertRecord_none (acc : JunctionHash) (r : Junction)
    (h : lookupKey acc (keyOf r) = none) :
    lookupKey (insertRecord acc r) (keyOf r) = some r := by
  unfold insertRecord
  rw [h]
  exact lookupKey_append_singleton_none acc _ r h

theorem lookupKey_insertRecord_some (acc : JunctionHash) (r v : Junction)
    (h : lookupKey acc (keyOf r) = some v) :
    lookupKey (insertRecord acc r) (keyOf r) = some (mergeJunction v r) := by
  unfold insertRecord
  rw [h]
  exact lookupKey_mergeMap_some acc r v h

/-- A run of the line loop that returns a mapping returns exactly the fold of
`insertRecord` over the accepted records. -/
theorem ingestLines_ok (min_junction_length : Int) :
    ∀ (lines : List (List String)) (acc m : JunctionHash),
      ingestLines min_junction_length acc lines = .ok m →
      m = (acceptedRecords min_junction_length lines).foldl insertRecord acc := by
  intro lines
  induction lines with
  | nil =>
    intro acc m h
    simp only [ingestLines, Except.ok.injEq] at h
    simp [acceptedRecords, h]
  | cons fields rest ih =>
    intro acc m h
    simp only [ingestLines] at h
    simp only [acceptedRecords, List.filterMap_cons]
    cases hp : parseFields min_junction_length fields with
    | skip =>
      rw [hp] at h
      simpa [acceptedRecords] using ih acc m h
    | err => rw [hp] at h; exact absurd h (by simp)
    | record r =>
      rw [hp] at h
      simpa [acceptedRecords] using ih (insertRecord acc r) m h

/-- Characterization of `read_junctions` via `buildHash` over the accepted records. -/
theorem read_junctions_ok (files : List (List String)) (min_junction_length : Int)
    (m : JunctionHash) (h : read_junctions files min_junction_length = .ok m) :
    m = buildHash (acceptedRecords min_junction_length (files.flatten.map pySplit)) :=
  ingestLines_ok min_junction_length _ [] m h

/-! ### The running maximum -/

theorem foldl_maxOpt_some (l : List Int) :
    ∀ m : Int, ∃ m' : Int, l.foldl maxOpt (some m) = some m' := by
  induction l with
  | nil => intro m; exact ⟨m, rfl⟩
  | cons x xs ih => intro m; simpa [maxOpt] using ih (max m x)

theorem listMax_eq_none_iff (l : List Int) : listMax l = none ↔ l = [] := by
  cases l with
  | nil => simp [listMax]
  | cons x xs =>
    simp only [listMax, List.foldl_cons, maxOpt]
    obtain ⟨m', hm'⟩ := foldl_maxOpt_some xs x
    simp [hm']

theorem listMax_append_singleton (l : List Int) (x : Int) :
    listMax (l ++ [x]) = maxOpt (listMax l) x := by
  simp [listMax, List.foldl_append]

theorem maxOpt_left_comm (o : Option Int) (x y : Int) :
    maxOpt (maxOpt o x) y = maxOpt (maxOpt o y) x := by
  cases o with
  | none => simp [maxOpt, max_comm]
  | some m => simp [maxOpt, max_assoc, max_comm x y]

theorem foldl_maxOpt_perm {l1 l2 : List Int} (h : l1.Perm l2) :
    ∀ o : Option Int, l1.foldl maxOpt o = l2.foldl maxOpt o := by
  induction h with
  | nil => intro o; rfl
  | cons x _ ih => intro o; simpa using ih (maxOpt o x)
  | swap x y l => intro o; simp only [List.foldl_cons]; rw [maxOpt_left_comm]
  | trans _ _ ih1 ih2 => intro o; rw [ih1 o, ih2 o]

theorem listMax_perm {l1 l2 : List Int} (h : l1.Perm l2) : listMax l1 = listMax l2 :=
  foldl_maxOpt_perm h none

/-! ### The per-key aggregate -/

theorem keyRecords_append (l1 l2 : List Junction) (k : String) :
    keyRecords (l1 ++ l2) k = keyRecords l1 k ++ keyRecords l2 k := by
  simp [keyRecords, List.filter_append]

theorem keyRecords_singleton_ne (r : Junction) (k : String) (h : keyOf r ≠ k) :
    keyRecords [r] k = [] := by
  simp [keyRecords, h]

theorem keyRecords_singleton_eq (r : Junction) : keyRecords [r] (keyOf r) = [r] := by
  simp [keyRecords]

theorem keyAgg_perm {records1 records2 : List Junction} (h : records1.Perm records2)
    (k : String) : keyAgg records1 k = keyAgg records2 k := by
  have hf : (keyRecords records1 k).Perm (keyRecords records2 k) := h.filter _
  unfold keyAgg
  rw [listMax_perm (hf.map Junction.alignment_overhang),
    (hf.map Junction.coverage).sum_eq, (hf.map Junction.multimap_coverage).sum_eq]

theorem buildHash_append_singleton (records : List Junction) (r : Junction) :
    buildHash (records ++ [r]) = insertRecord (buildHash records) r := by
  simp [buildHash, List.foldl_append]

/-- Central characterization: looking up any key in the accumulator built from
a record list and projecting to the three counters gives exactly the reference
aggregate (present iff some record carries the key; coverages summed, overhang
maxed over all records with that key). -/
theorem lookupKey_buildHash_counters (records : List Junction) :
    ∀ k : String, (lookupKey (buildHash records) k).map countersOf = keyAgg records k := by
  induction records using List.reverseRecOn with
  | nil =>
    intro k
    simp [buildHash, lookupKey, keyAgg, keyRecords, listMax]
  | append_singleton l r ih =>
    intro k
    rw [buildHash_append_singleton]
    by_cases hk : keyOf r = k
    · subst hk
      cases hML : listMax ((keyRecords l (keyOf r)).map Junction.alignment_overhang) with
      | none =>
        have hmap : (keyRecords l (keyOf r)).map Junction.alignment_overhang = [] :=
          (listMax_eq_none_iff _).mp hML
        have hL : keyRecords l (keyOf r) = [] := by
          simpa using hmap
        have hnone : lookupKey (buildHash l) (keyOf r) = none := by
          have := ih (keyOf r)
          rw [keyAgg, hML] at this
          exact Option.map_eq_none'.mp this
        rw [lookupKey_insertRecord_none _ _ hnone]
        rw [keyAgg, keyRecords_append, hL, keyRecords_singleton_eq]
        simp [countersOf, listMax, maxOpt]
      | some mx =>
        have hsome := ih (keyOf r)
        rw [keyAgg, hML] at hsome
        obtain ⟨v, hv, hcv⟩ := Option.map_eq_some'.mp hsome
        rw [lookupKey_insertRecord_some _ _ _ hv]
        have h1 : v.coverage = ((keyRecords l (keyOf r)).map Junction.coverage).sum := by
          simpa [countersOf, Prod.ext_iff] using congrArg Prod.fst hcv
        have h2 : v.multimap_coverage =
            ((keyRecords l (keyOf r)).map Junction.multimap_coverage).sum := by
          simpa [countersOf, Prod.ext_iff] using congrArg (fun p => p.snd.fst) hcv
        have h3 : v.alignment_overhang = mx := by
          simpa [countersOf, Prod.ext_iff] using congrArg (fun p => p.snd.snd) hcv
        rw [keyAgg, keyRecords_append, keyRecords_singleton_eq]
        rw [List.map_append]
        simp only [List.map_cons, List.map_nil]
        rw [listMax_append_singleton, hML]
        simp [countersOf, mergeJunction, maxOpt, h1, h2, h3]
    · rw [lookupKey_insertRecord_ne _ _ _ hk]
      rw [ih k]
      unfold keyAgg
      rw [keyRecords_append, keyRecords_singleton_ne _ _ hk, List.append_nil]

/-! ### Uniqueness of keys in the accumulator -/

theorem lookupKey_eq_none_iff (acc : JunctionHash) (k : String) :
    lookupKey acc k = none ↔ k ∉ acc.map Prod.fst := by
  induction acc with
  | nil => simp [lookupKey]
  | cons kv rest ih =>
    simp only [lookupKey, List.map_cons, List.mem_cons]
    by_cases hk : kv.fst = k
    · simp [hk]
    · simp only [if_neg hk, ih]
      constructor
      · intro h hc
        rcases hc with hc | hc
        · exact hk hc.symm
        · exact h hc
      · intro h
        exact fun hc => h (Or.inr hc)

theorem insertRecord_map_fst_merge (acc : JunctionHash) (r : Junction) :
    ((acc.map fun kv =>
        if kv.fst = keyOf r then (kv.fst, mergeJunction kv.snd r) else kv).map Prod.fst)
      = acc.map Prod.fst := by
  rw [List.map_map]
  refine List.map_congr_left ?_
  intro kv _
  by_cases hkv : kv.fst = keyOf r <;> simp [hkv]

theorem nodup_insertRecord (acc : JunctionHash) (r : Junction)
    (h : (acc.map Prod.fst).Nodup) : ((insertRecord acc r).map Prod.fst).Nodup := by
  unfold insertRecord
  cases hl : lookupKey acc (keyOf r) with
  | some v => rw [insertRecord_map_fst_merge]; exact h
  | none =>
    have hnot : keyOf r ∉ acc.map Prod.fst := (lookupKey_eq_none_iff acc (keyOf r)).mp hl
    simp only [List.map_append, List.map_cons, List.map_nil]
    rw [List.nodup_append]
    exact ⟨h, List.nodup_singleton _, by simpa using hnot⟩

theorem nodup_foldl_insertRecord (records : List Junction) :
    ∀ acc : JunctionHash, (acc.map Prod.fst).Nodup →
      ((records.foldl insertRecord acc).map Prod.fst).Nodup := by
  induction records with
  | nil => intro acc h; exact h
  | cons r rest ih =>
    intro acc h
    exact ih (insertRecord acc r) (nodup_insertRecord acc r h)

theorem nodup_buildHash (records : List Junction) :
    ((buildHash records).map Prod.fst).Nodup :=
  nodup_foldl_insertRecord records [] (by simp)

theorem lookupKey_of_mem_nodup (acc : JunctionHash) (k : String) (v : Junction)
    (hnd : (acc.map Prod.fst).Nodup) (hmem : (k, v) ∈ acc) : lookupKey acc k = some v := by
  induction acc with
  | nil => simp at hmem
  | cons kv rest ih =>
    simp only [List.map_cons, List.nodup_cons] at hnd
    rcases List.mem_cons.mp hmem with hc | hc
    · simp [lookupKey, ← hc]
    · have hk : kv.fst ≠ k := by
        intro he
        exact hnd.1 (he ▸ (List.mem_map.mpr ⟨(k, v), hc, rfl⟩))
      simp only [lookupKey, if_neg hk]
      exact ih hnd.2 hc

/-! ### Presence and first-seen text fields -/

theorem lookupKey_buildHash_eq_none_iff (records : List Junction) (k : String) :
    lookupKey (buildHash records) k = none ↔ keyRecords records k = [] := by
  have h := lookupKey_buildHash_counters records k
  constructor
  · intro hn
    rw [hn] at h
    simp only [Option.map_none'] at h
    unfold keyAgg at h
    cases hML : listMax ((keyRecords records k).map Junction.alignment_overhang) with
    | none =>
      have := (listMax_eq_none_iff _).mp hML
      simpa using this
    | some m => rw [hML] at h; simp at h
  · intro hk
    rw [keyAgg, hk] at h
    simp only [List.map_nil] at h
    rw [show listMax [] = none from rfl] at h
    exact Option.map_eq_none'.mp h

theorem lookupKey_buildHash_text (records : List Junction) :
    ∀ k : String,
      (lookupKey (buildHash records) k).map textOf = ((keyRecords records k).head?).map textOf := by
  induction records using List.reverseRecOn with
  | nil => intro k; simp [buildHash, lookupKey, keyRecords]
  | append_singleton l r ih =>
    intro k
    rw [buildHash_append_singleton]
    by_cases hk : keyOf r = k
    · subst hk
      cases hL : keyRecords l (keyOf r) with
      | nil =>
        have hnone : lookupKey (buildHash l) (keyOf r) = none :=
          (lookupKey_buildHash_eq_none_iff l (keyOf r)).mpr hL
        rw [lookupKey_insertRecord_none _ _ hnone]
        rw [keyRecords_append, hL, keyRecords_singleton_eq]
        rfl
      | cons r0 rs =>
        have hne : lookupKey (buildHash l) (keyOf r) ≠ none := by
          intro hn
          rw [lookupKey_buildHash_eq_none_iff l (keyOf r), hL] at hn
          exact List.cons_ne_nil r0 rs hn
        obtain ⟨v, hv⟩ := Option.ne_none_iff_exists'.mp hne
        have htext := ih (keyOf r)
        rw [hv, hL] at htext
        simp only [Option.map_some', List.head?_cons, Option.some.injEq] at htext
        rw [lookupKey_insertRecord_some _ _ _ hv]
        rw [keyRecords_append, hL, keyRecords_singleton_eq]
        simp only [Option.map_some', List.cons_append, List.head?_cons]
        rw [show textOf (mergeJunction v r) = textOf v from rfl, htext]
    · rw [lookupKey_insertRecord_ne _ _ _ hk, ih k]
      rw [keyRecords_append, keyRecords_singleton_ne _ _ hk, List.append_nil]

/-! ### Parsing an exactly-nine-field line -/

/-- On a line with exactly 9 fields the guard passes and the unpacking
succeeds, leaving the numeric conversions and the two ingest filters. -/
theorem parseFields_nine (L : Int) (c s e st sp a cov mm ov : String) :
    parseFields L [c, s, e, st, sp, a, cov, mm, ov] =
      match pyInt? e, pyInt? s with
      | some ev, some sv =>
        if ev - sv < L then LineResult.skip
        else
          match pyInt? a with
          | some av =>
            if av = 1 then LineResult.skip
            else
              match pyInt? cov, pyInt? mm, pyInt? ov with
              | some cv, some mv, some vv =>
                LineResult.record ⟨c, s, e, st, sp, cv, mv, vv⟩
              | _, _, _ => LineResult.err
          | none => LineResult.err
      | _, _ => LineResult.err := rfl

/-! ### The claims -/

/-- C1: merge semantics for a repeated key — when a record whose key already
exists is ingested, the stored entry's coverage and multimap coverage are
incremented by the record's values, the overhang becomes the max of stored and
incoming, and the splice-site text keeps its first-seen value; on the spec's
worked example (two files, one record each for chr1:100-200:+ with coverages
3/1 overhang 10 and 4/2 overhang 12, thresholds 50 and 5) the program emits
exactly the single line `chr1 100 200 + GT/AG 1 7 3 12`. -/
theorem C1_repeated_key_merge :
    (∀ (acc : JunctionHash) (r v : Junction),
      lookupKey acc (keyOf r) = some v →
        lookupKey (insertRecord acc r) (keyOf r) = some (mergeJunction v r) ∧
        (mergeJunction v r).coverage = v.coverage + r.coverage ∧
        (mergeJunction v r).multimap_coverage = v.multimap_coverage + r.multimap_coverage ∧
        (mergeJunction v r).alignment_overhang = max v.alignment_overhang r.alignment_overhang ∧
        (mergeJunction v r).splice_sites = v.splice_sites) ∧
    run [["chr1\t100\t200\t+\tGT/AG\t0\t3\t1\t10"],
         ["chr1\t100\t200\t+\tGT/AG\t0\t4\t2\t12"]] 50 5 =
      .ok ["chr1\t100\t200\t+\tGT/AG\t1\t7\t3\t12"] := by
  constructor
  · intro acc r v h
    exact ⟨lookupKey_insertRecord_some acc r v h, rfl, rfl, rfl, rfl⟩
  · rfl

/-- C1 witness: the merge branch evaluated at one concrete repeated key. -/
theorem C1_repeated_key_merge_witness :
    lookupKey
        (insertRecord [(keyOf ⟨"chr1", "100", "200", "+", "GT/AG", 4, 2, 12⟩,
                        ⟨"chr1", "100", "200", "+", "GT/AG", 3, 1, 10⟩)]
          ⟨"chr1", "100", "200", "+", "GT/AG", 4, 2, 12⟩)
        (keyOf ⟨"chr1", "100", "200", "+", "GT/AG", 4, 2, 12⟩) =
      some (mergeJunction ⟨"chr1", "100", "200", "+", "GT/AG", 3, 1, 10⟩
        ⟨"chr1", "100", "200", "+", "GT/AG", 4, 2, 12⟩) :=
  (C1_repeated_key_merge.1 _ _ _ (by simp [lookupKey])).1

/-- C2: the code does NOT silently skip every line with fewer than 9 fields —
the guard only skips lines with fewer than 8 fields, so a line with exactly
8 fields reaches the 9-way tuple unpacking and raises `ValueError`, aborting
the run instead of continuing. A 7-field line, by contrast, is skipped. -/
theorem C2_eight_field_line_raises :
    parseFields 50 ["chr1", "100", "200", "+", "GT/AG", "0", "3", "1"] = LineResult.err ∧
    ingestLines 50 [] [["chr1", "100", "200", "+", "GT/AG", "0", "3", "1"]] =
      Except.error () ∧
    parseFields 50 ["chr1", "100", "200", "+", "GT/AG", "0", "3"] = LineResult.skip :=
  ⟨rfl, rfl, rfl⟩

/-- C3 counterexample: a line with 10 fields is NOT processed as if the extra
column were absent — it raises (tuple unpacking error) while the same line
without the extra column parses into an accepted record. -/
theorem C3_counterexample_extra_column :
    parseFields 50 ["chr1", "100", "200", "+", "GT/AG", "0", "3", "1", "10", "extra"] =
      LineResult.err ∧
    parseFields 50 ["chr1", "100", "200", "+", "GT/AG", "0", "3", "1", "10"] =
      LineResult.record ⟨"chr1", "100", "200", "+", "GT/AG", 3, 1, 10⟩ :=
  ⟨rfl, rfl⟩

/-- C3 amended: every input line with more than 9 whitespace-delimited fields
raises an unpacking error (the run aborts); extra trailing columns are not
ignored. -/
theorem C3_amended_long_line_errors :
    ∀ (min_junction_length : Int) (fields : List String),
      9 < fields.length → parseFields min_junction_length fields = LineResult.err := by
  intro L fields h
  obtain _ | ⟨a1, fields⟩ := fields; · simp at h
  obtain _ | ⟨a2, fields⟩ := fields; · simp at h
  obtain _ | ⟨a3, fields⟩ := fields; · simp at h
  obtain _ | ⟨a4, fields⟩ := fields; · simp at h
  obtain _ | ⟨a5, fields⟩ := fields; · simp at h
  obtain _ | ⟨a6, fields⟩ := fields; · simp at h
  obtain _ | ⟨a7, fields⟩ := fields; · simp at h
  obtain _ | ⟨a8, fields⟩ := fields; · simp at h
  obtain _ | ⟨a9, fields⟩ := fields; · simp at h
  obtain _ | ⟨a10, fields⟩ := fields; · simp at h
  rfl

/-- C3 amended witness: a concrete 10-field line errors. -/
theorem C3_amended_long_line_errors_witness :
    parseFields 50 ["chr1", "100", "200", "+", "GT/AG", "0", "3", "1", "10", "X"] =
      LineResult.err :=
  C3_amended_long_line_errors 50 _ (by simp)

/-- Presence of a key in the built accumulator is equivalent to some accepted
record carrying that key. -/
theorem lookupKey_buildHash_isSome_iff (records : List Junction) (k : String) :
    (lookupKey (buildHash records) k).isSome ↔ ∃ r ∈ records, keyOf r = k := by
  rw [Option.isSome_iff_ne_none]
  constructor
  · intro hne
    cases hK : keyRecords records k with
    | nil => exact absurd ((lookupKey_buildHash_eq_none_iff records k).mpr hK) hne
    | cons r rest =>
      have hrmem : r ∈ keyRecords records k := hK ▸ List.mem_cons_self r rest
      have := List.mem_filter.mp hrmem
      exact ⟨r, this.1, by simpa using this.2⟩
  · rintro ⟨r, hr, hk⟩ hnone
    rw [lookupKey_buildHash_eq_none_iff records k] at hnone
    have hrmem : r ∈ keyRecords records k := List.mem_filter.mpr ⟨hr, by simp [hk]⟩
    rw [hnone] at hrmem
    simp at hrmem

/-- C4 counterexample: input order can change more than the retained
splice-site text and the output line order. The formatted key string admits
collisions between distinct text tuples — chrom `a:1000-2000`, start `100`,
«end» `200`, strand `+` and chrom `a`, start `1000`, «end» `2000`, strand
`100-200:+` both key to `a:1000-2000:100-200:+` — so the two permutations of
the same two single-record files each emit one line, with the same splice-site
column `GT/AG` in both, yet the emitted lines differ in content (chrom, start,
end and strand text), not merely in order. -/
theorem C4_counterexample_key_collision :
    ([["a:1000-2000\t100\t200\t+\tGT/AG\t0\t3\t1\t10"],
      ["a\t1000\t2000\t100-200:+\tGT/AG\t0\t4\t2\t12"]] :
        List (List String)).Perm
      [["a\t1000\t2000\t100-200:+\tGT/AG\t0\t4\t2\t12"],
       ["a:1000-2000\t100\t200\t+\tGT/AG\t0\t3\t1\t10"]] ∧
    run [["a:1000-2000\t100\t200\t+\tGT/AG\t0\t3\t1\t10"],
         ["a\t1000\t2000\t100-200:+\tGT/AG\t0\t4\t2\t12"]] 50 5 =
      .ok ["a:1000-2000\t100\t200\t+\tGT/AG\t1\t7\t3\t12"] ∧
    run [["a\t1000\t2000\t100-200:+\tGT/AG\t0\t4\t2\t12"],
         ["a:1000-2000\t100\t200\t+\tGT/AG\t0\t3\t1\t10"]] 50 5 =
      .ok ["a\t1000\t2000\t100-200:+\tGT/AG\t1\t7\t3\t12"] ∧
    "a:1000-2000\t100\t200\t+\tGT/AG\t1\t7\t3\t12" ≠
      "a\t1000\t2000\t100-200:+\tGT/AG\t1\t7\t3\t12" :=
  ⟨List.Perm.swap _ _ _, rfl, rfl, by decide⟩

/-- C4 amended: order independence of the final mapping content — for two runs
on permuted lists of input files that both complete, every key string is
present in one final mapping iff it is present in the other, and with the same
summed unique coverage, summed multimap coverage and maximal overhang; the
stored first-seen text fields (chrom, start, end, strand and splice-site type,
which can differ between records sharing a key string), and therefore the
content as well as the order of the emitted lines, may depend on input
order. -/
theorem C4_order_independence :
    ∀ (min_junction_length : Int) (files1 files2 : List (List String))
      (m1 m2 : JunctionHash),
      files1.Perm files2 →
      read_junctions files1 min_junction_length = .ok m1 →
      read_junctions files2 min_junction_length = .ok m2 →
      ∀ k : String, (lookupKey m1 k).map countersOf = (lookupKey m2 k).map countersOf := by
  intro L f1 f2 m1 m2 hperm h1 h2 k
  rw [read_junctions_ok f1 L m1 h1, read_junctions_ok f2 L m2 h2,
    lookupKey_buildHash_counters, lookupKey_buildHash_counters]
  have haccept : (acceptedRecords L (f1.flatten.map pySplit)).Perm
      (acceptedRecords L (f2.flatten.map pySplit)) :=
    (hperm.flatten.map pySplit).filterMap _
  exact keyAgg_perm haccept k

/-- C4 witness: the two file orders of the worked example give the same
counters for the shared key. -/
theorem C4_order_independence_witness :
    ([["chr1\t100\t200\t+\tGT/AG\t0\t3\t1\t10"],
      ["chr2\t100\t300\t-\tCT/AC\t0\t4\t2\t12"]] :
        List (List String)).Perm
      [["chr2\t100\t300\t-\tCT/AC\t0\t4\t2\t12"],
       ["chr1\t100\t200\t+\tGT/AG\t0\t3\t1\t10"]] ∧
    (lookupKey [("chr1:100-200:+", ⟨"chr1", "100", "200", "+", "GT/AG", 3, 1, 10⟩),
                ("chr2:100-300:-", ⟨"chr2", "100", "300", "-", "CT/AC", 4, 2, 12⟩)]
        "chr1:100-200:+").map countersOf =
      (lookupKey [("chr2:100-300:-", ⟨"chr2", "100", "300", "-", "CT/AC", 4, 2, 12⟩),
                  ("chr1:100-200:+", ⟨"chr1", "100", "200", "+", "GT/AG", 3, 1, 10⟩)]
        "chr1:100-200:+").map countersOf :=
  ⟨List.Perm.swap _ _ _,
    C4_order_independence 50
      [["chr1\t100\t200\t+\tGT/AG\t0\t3\t1\t10"],
       ["chr2\t100\t300\t-\tCT/AC\t0\t4\t2\t12"]]
      [["chr2\t100\t300\t-\tCT/AC\t0\t4\t2\t12"],
       ["chr1\t100\t200\t+\tGT/AG\t0\t3\t1\t10"]]
      [("chr1:100-200:+", ⟨"chr1", "100", "200", "+", "GT/AG", 3, 1, 10⟩),
       ("chr2:100-300:-", ⟨"chr2", "100", "300", "-", "CT/AC", 4, 2, 12⟩)]
      [("chr2:100-300:-", ⟨"chr2", "100", "300", "-", "CT/AC", 4, 2, 12⟩),
       ("chr1:100-200:+", ⟨"chr1", "100", "200", "+", "GT/AG", 3, 1, 10⟩)]
      (List.Perm.swap _ _ _) rfl rfl "chr1:100-200:+"⟩

/-- C5 counterexample: identity is the formatted key string, not the integer
tuple — the textually different but numerically equal starts `100` and `0100`
produce two distinct mapping entries, not one. -/
theorem C5_counterexample_leading_zero :
    pyInt? "100" = pyInt? "0100" ∧
    read_junctions [["chr1\t100\t200\t+\tGT/AG\t0\t3\t1\t10",
                     "chr1\t0100\t200\t+\tGT/AG\t0\t4\t2\t12"]] 50 =
      .ok [("chr1:100-200:+", ⟨"chr1", "100", "200", "+", "GT/AG", 3, 1, 10⟩),
           ("chr1:0100-200:+", ⟨"chr1", "0100", "200", "+", "GT/AG", 4, 2, 12⟩)] :=
  ⟨rfl, rfl⟩

/-- C5 amended: two accepted records land in the same mapping entry iff their
formatted key strings `chr:start-end:strand` (built from the verbatim text
fields) are equal; after any completed run the mapping holds at most one entry
per key string, and a key string is present iff some accepted record carries
it. -/
theorem C5_amended_textual_key_identity :
    ∀ (min_junction_length : Int) (files : List (List String)) (m : JunctionHash),
      read_junctions files min_junction_length = .ok m →
      (m.map Prod.fst).Nodup ∧
      ∀ k : String, (lookupKey m k).isSome ↔
        ∃ r ∈ acceptedRecords min_junction_length (files.flatten.map pySplit), keyOf r = k := by
  intro L files m h
  rw [read_junctions_ok files L m h]
  exact ⟨nodup_buildHash _, fun k => lookupKey_buildHash_isSome_iff _ k⟩

/-- C5 amended witness: on the leading-zero example the run yields two entries
with distinct key strings, each present. -/
theorem C5_amended_textual_key_identity_witness :
    ([("chr1:100-200:+", (⟨"chr1", "100", "200", "+", "GT/AG", 3, 1, 10⟩ : Junction)),
      ("chr1:0100-200:+", ⟨"chr1", "0100", "200", "+", "GT/AG", 4, 2, 12⟩)].map
        Prod.fst).Nodup ∧
    ∀ k : String,
      (lookupKey [("chr1:100-200:+", ⟨"chr1", "100", "200", "+", "GT/AG", 3, 1, 10⟩),
                  ("chr1:0100-200:+", ⟨"chr1", "0100", "200", "+", "GT/AG", 4, 2, 12⟩)]
          k).isSome ↔
        ∃ r ∈ acceptedRecords 50
            (([["chr1\t100\t200\t+\tGT/AG\t0\t3\t1\t10",
                "chr1\t0100\t200\t+\tGT/AG\t0\t4\t2\t12"]] :
                List (List String)).flatten.map pySplit), keyOf r = k :=
  C5_amended_textual_key_identity 50 _ _ rfl

/-- C6: annotation filter — a 9-field record whose annotated field parses to 1
is never accepted by the parser, and ingesting such a line either leaves the
accumulator untouched (the `continue` path) or aborts the whole run (a
malformed numeric field earlier on the line); in no case does it create a
mapping entry or contribute to an existing one. -/
theorem C6_annotated_dropped :
    ∀ (min_junction_length : Int) (acc : JunctionHash) (c s e st sp a cov mm ov : String),
      pyInt? a = some 1 →
      (∀ r : Junction,
        parseFields min_junction_length [c, s, e, st, sp, a, cov, mm, ov] ≠
          LineResult.record r) ∧
      (ingestLines min_junction_length acc [[c, s, e, st, sp, a, cov, mm, ov]] = .ok acc ∨
       ingestLines min_junction_length acc [[c, s, e, st, sp, a, cov, mm, ov]] =
         .error ()) := by
  intro L acc c s e st sp a cov mm ov ha
  have hnr : ∀ r : Junction,
      parseFields L [c, s, e, st, sp, a, cov, mm, ov] ≠ LineResult.record r := by
    intro r hr
    rw [parseFields_nine] at hr
    rcases he : pyInt? e with _ | ev <;> rcases hs : pyInt? s with _ | sv <;>
      rw [he, hs] at hr
    · exact LineResult.noConfusion hr
    · exact LineResult.noConfusion hr
    · exact LineResult.noConfusion hr
    · have hr' : (if ev - sv < L then LineResult.skip
          else
            match pyInt? a with
            | some av =>
              if av = 1 then LineResult.skip
              else
                match pyInt? cov, pyInt? mm, pyInt? ov with
                | some cv, some mv, some vv =>
                  LineResult.record ⟨c, s, e, st, sp, cv, mv, vv⟩
                | _, _, _ => LineResult.err
            | none => LineResult.err) = LineResult.record r := hr
      by_cases hlen : ev - sv < L
      · rw [if_pos hlen] at hr'
        exact LineResult.noConfusion hr'
      · rw [if_neg hlen, ha] at hr'
        exact LineResult.noConfusion hr'
  refine ⟨hnr, ?_⟩
  cases hp : parseFields L [c, s, e, st, sp, a, cov, mm, ov] with
  | skip => left; simp [ingestLines, hp]
  | err => right; simp [ingestLines, hp]
  | record r => exact absurd hp (hnr r)

/-- C6 witness: a concrete annotated record is rejected and leaves the
accumulator unchanged. -/
theorem C6_annotated_dropped_witness :
    (∀ r : Junction,
      parseFields 50 ["chr1", "100", "200", "+", "GT/AG", "1", "7", "1", "10"] ≠
        LineResult.record r) ∧
    (ingestLines 50 [] [["chr1", "100", "200", "+", "GT/AG", "1", "7", "1", "10"]] =
       .ok [] ∨
     ingestLines 50 [] [["chr1", "100", "200", "+", "GT/AG", "1", "7", "1", "10"]] =
       .error ()) :=
  C6_annotated_dropped 50 [] "chr1" "100" "200" "+" "GT/AG" "1" "7" "1" "10" rfl

/-- C7: length filter boundary — for a 9-field line whose numeric fields all
parse and whose annotated flag is not 1, the parser skips the line without
error exactly when `end - start < min_junction_length`, and accepts the record
exactly when `end - start >= min_junction_length` (so the boundary value
`end - start = min_junction_length` is retained and one less is skipped). -/
theorem C7_length_filter_boundary :
    ∀ (min_junction_length : Int) (c s e st sp a cov mm ov : String)
      (sv ev av cv mv vv : Int),
      pyInt? s = some sv → pyInt? e = some ev → pyInt? a = some av → av ≠ 1 →
      pyInt? cov = some cv → pyInt? mm = some mv → pyInt? ov = some vv →
      (ev - sv < min_junction_length →
        parseFields min_junction_length [c, s, e, st, sp, a, cov, mm, ov] =
          LineResult.skip) ∧
      (min_junction_length ≤ ev - sv →
        parseFields min_junction_length [c, s, e, st, sp, a, cov, mm, ov] =
          LineResult.record ⟨c, s, e, st, sp, cv, mv, vv⟩) := by
  intro L c s e st sp a cov mm ov sv ev av cv mv vv hs he ha hav hc hm ho
  have hred : parseFields L [c, s, e, st, sp, a, cov, mm, ov] =
      if ev - sv < L then LineResult.skip
      else if av = 1 then LineResult.skip
      else LineResult.record ⟨c, s, e, st, sp, cv, mv, vv⟩ := by
    rw [parseFields_nine, hs, he, ha, hc, hm, ho]
  rw [hred]
  constructor
  · intro hlt
    rw [if_pos hlt]
  · intro hge
    rw [if_neg (not_lt.mpr hge), if_neg hav]

/-- C7 witness: with threshold 50, the boundary junction of length exactly 50
is retained and the one of length 49 is skipped. -/
theorem C7_length_filter_boundary_witness :
    ((150 : Int) - 100 < 50 →
      parseFields 50 ["chr1", "100", "150", "+", "GT/AG", "0", "3", "1", "10"] =
        LineResult.skip) ∧
    ((50 : Int) ≤ 150 - 100 →
      parseFields 50 ["chr1", "100", "150", "+", "GT/AG", "0", "3", "1", "10"] =
        LineResult.record ⟨"chr1", "100", "150", "+", "GT/AG", 3, 1, 10⟩) :=
  C7_length_filter_boundary 50 "chr1" "100" "150" "+" "GT/AG" "0" "3" "1" "10"
    100 150 0 3 1 10 rfl rfl rfl (by decide) rfl rfl rfl

/-- C9: no deduplication — supplying the same single-record file twice yields
one mapping entry whose coverages are exactly twice the record's values and
whose overhang equals the record's overhang. -/
theorem C9_no_deduplication :
    ∀ (min_junction_length : Int) (line : String) (r : Junction),
      parseFields min_junction_length (pySplit line) = LineResult.record r →
      read_junctions [[line], [line]] min_junction_length =
        .ok [(keyOf r, mergeJunction r r)] ∧
      (mergeJunction r r).coverage = 2 * r.coverage ∧
      (mergeJunction r r).multimap_coverage = 2 * r.multimap_coverage ∧
      (mergeJunction r r).alignment_overhang = r.alignment_overhang := by
  intro L line r hp
  have h2 : lookupKey [(keyOf r, r)] (keyOf r) = some r := by simp [lookupKey]
  have h3 : insertRecord [(keyOf r, r)] r = [(keyOf r, mergeJunction r r)] := by
    unfold insertRecord
    rw [h2]
    simp [lookupKey]
  refine ⟨?_, ?_, ?_, ?_⟩
  · have hshow : read_junctions [[line], [line]] L =
        ingestLines L [] [pySplit line, pySplit line] := rfl
    rw [hshow]
    simp only [ingestLines, hp]
    rw [show insertRecord [] r = [(keyOf r, r)] from rfl, h3]
  · simp [mergeJunction, two_mul]
  · simp [mergeJunction, two_mul]
  · simp [mergeJunction]

/-- C9 witness: the worked record ingested twice doubles both coverages. -/
theorem C9_no_deduplication_witness :
    read_junctions [["chr1\t100\t200\t+\tGT/AG\t0\t3\t1\t10"],
                    ["chr1\t100\t200\t+\tGT/AG\t0\t3\t1\t10"]] 50 =
      .ok [(keyOf ⟨"chr1", "100", "200", "+", "GT/AG", 3, 1, 10⟩,
            mergeJunction ⟨"chr1", "100", "200", "+", "GT/AG", 3, 1, 10⟩
              ⟨"chr1", "100", "200", "+", "GT/AG", 3, 1, 10⟩)] ∧
    (mergeJunction (⟨"chr1", "100", "200", "+", "GT/AG", 3, 1, 10⟩ : Junction)
        ⟨"chr1", "100", "200", "+", "GT/AG", 3, 1, 10⟩).coverage = 2 * 3 ∧
    (mergeJunction (⟨"chr1", "100", "200", "+", "GT/AG", 3, 1, 10⟩ : Junction)
        ⟨"chr1", "100", "200", "+", "GT/AG", 3, 1, 10⟩).multimap_coverage = 2 * 1 ∧
    (mergeJunction (⟨"chr1", "100", "200", "+", "GT/AG", 3, 1, 10⟩ : Junction)
        ⟨"chr1", "100", "200", "+", "GT/AG", 3, 1, 10⟩).alignment_overhang = 10 :=
  C9_no_deduplication 50 "chr1\t100\t200\t+\tGT/AG\t0\t3\t1\t10"
    ⟨"chr1", "100", "200", "+", "GT/AG", 3, 1, 10⟩ rfl

/-- C8: coverage emission filter — the writer emits exactly the entries with
pooled coverage at least `min_junction_coverage` (in mapping order); an entry
whose coverage equals the threshold is written, and one whose coverage is one
below the threshold is not. -/
theorem C8_coverage_emission_filter :
    ∀ (min_junction_coverage : Int) (junctions : JunctionHash),
      (_write_junctions junctions min_junction_coverage =
        (junctions.filter fun kv => decide (min_junction_coverage ≤ kv.snd.coverage)).map
          fun kv => formatLine kv.snd) ∧
      (∀ k : String, ∀ v : Junction, v.coverage = min_junction_coverage →
        _write_junctions [(k, v)] min_junction_coverage = [formatLine v]) ∧
      (∀ k : String, ∀ v : Junction, v.coverage = min_junction_coverage - 1 →
        _write_junctions [(k, v)] min_junction_coverage = []) := by
  intro mc junctions
  refine ⟨?_, ?_, ?_⟩
  · induction junctions with
    | nil => rfl
    | cons kv rest ih =>
      by_cases h : kv.snd.coverage < mc
      · have hd : decide (mc ≤ kv.snd.coverage) = false := by
          simp [not_le.mpr h]
        simp [_write_junctions, List.filterMap_cons, List.filter_cons, if_pos h, hd] at ih ⊢
        exact ih
      · have hd : decide (mc ≤ kv.snd.coverage) = true := by
          simp [not_lt.mp h]
        simp [_write_junctions, List.filterMap_cons, List.filter_cons, if_neg h, hd] at ih ⊢
        exact ih
  · intro k v hv
    have h : ¬ v.coverage < mc := by rw [hv]; exact lt_irrefl mc
    simp [_write_junctions, List.filterMap_cons, if_neg h]
  · intro k v hv
    have h : v.coverage < mc := by rw [hv]; exact sub_one_lt mc
    simp [_write_junctions, List.filterMap_cons, if_pos h]

/-- C8 witness: at threshold 5, coverage 5 is emitted and coverage 4 is not. -/
theorem C8_coverage_emission_filter_witness :
    (_write_junctions
        [("chr1:100-200:+", (⟨"chr1", "100", "200", "+", "GT/AG", 5, 1, 10⟩ : Junction))] 5 =
      (([("chr1:100-200:+", (⟨"chr1", "100", "200", "+", "GT/AG", 5, 1, 10⟩ : Junction))]).filter
          fun kv => decide ((5 : Int) ≤ kv.snd.coverage)).map fun kv => formatLine kv.snd) ∧
    ((⟨"chr1", "100", "200", "+", "GT/AG", 5, 1, 10⟩ : Junction).coverage = 5 →
      _write_junctions [("chr1:100-200:+", ⟨"chr1", "100", "200", "+", "GT/AG", 5, 1, 10⟩)] 5 =
        [formatLine ⟨"chr1", "100", "200", "+", "GT/AG", 5, 1, 10⟩]) ∧
    ((⟨"chr1", "100", "200", "+", "GT/AG", 4, 1, 10⟩ : Junction).coverage = 5 - 1 →
      _write_junctions [("chr1:100-200:+", ⟨"chr1", "100", "200", "+", "GT/AG", 4, 1, 10⟩)] 5 =
        []) :=
  ⟨(C8_coverage_emission_filter 5
      [("chr1:100-200:+", ⟨"chr1", "100", "200", "+", "GT/AG", 5, 1, 10⟩)]).1,
   fun h => (C8_coverage_emission_filter 5
      [("chr1:100-200:+", ⟨"chr1", "100", "200", "+", "GT/AG", 5, 1, 10⟩)]).2.1
        "chr1:100-200:+" _ h,
   fun h => (C8_coverage_emission_filter 5
      [("chr1:100-200:+", ⟨"chr1", "100", "200", "+", "GT/AG", 4, 1, 10⟩)]).2.2
        "chr1:100-200:+" _ h⟩

/-- C10: every emitted line is the serialization of a mapping entry whose five
text columns (chrom, start, end, strand, splice sites) are the verbatim tokens
of the first accepted record for that entry's key — no numeric normalization;
only the annotated flag (hardcoded 1) and the pooled counters may differ from
that first record. -/
theorem C10_first_seen_text_verbatim :
    ∀ (min_junction_length min_junction_coverage : Int) (files : List (List String))
      (m : JunctionHash) (line : String),
      read_junctions files min_junction_length = .ok m →
      line ∈ _write_junctions m min_junction_coverage →
      ∃ (k : String) (v first : Junction),
        (k, v) ∈ m ∧ line = formatLine v ∧
        (keyRecords (acceptedRecords min_junction_length (files.flatten.map pySplit))
            k).head? = some first ∧
        v.chr = first.chr ∧ v.start = first.start ∧ v.«end» = first.«end» ∧
        v.strand = first.strand ∧ v.splice_sites = first.splice_sites := by
  intro L mc files m line hread hline
  obtain ⟨kv, hkvmem, hkv⟩ := List.mem_filterMap.mp hline
  by_cases hc : kv.snd.coverage < mc
  · rw [if_pos hc] at hkv
    exact absurd hkv (by simp)
  · rw [if_neg hc] at hkv
    have hm := read_junctions_ok files L m hread
    have hnd : (m.map Prod.fst).Nodup := by rw [hm]; exact nodup_buildHash _
    have hlk : lookupKey m kv.fst = some kv.snd := by
      have : (kv.fst, kv.snd) ∈ m := by simpa using hkvmem
      exact lookupKey_of_mem_nodup m kv.fst kv.snd hnd this
    have htext := lookupKey_buildHash_text
      (acceptedRecords L (files.flatten.map pySplit)) kv.fst
    rw [← hm, hlk] at htext
    cases hh : (keyRecords (acceptedRecords L (files.flatten.map pySplit)) kv.fst).head? with
    | none =>
      rw [hh] at htext
      simp at htext
    | some first =>
      rw [hh] at htext
      simp only [Option.map_some', Option.some.injEq] at htext
      refine ⟨kv.fst, kv.snd, first, by simpa using hkvmem, (Option.some.injEq _ _).mp hkv |>.symm,
        hh, ?_, ?_, ?_, ?_, ?_⟩
      · exact congrArg (fun p => p.fst) htext
      · exact congrArg (fun p => p.snd.fst) htext
      · exact congrArg (fun p => p.snd.snd.fst) htext
      · exact congrArg (fun p => p.snd.snd.snd.fst) htext
      · exact congrArg (fun p => p.snd.snd.snd.snd) htext

/-- C10 witness: a start field `0100` is reproduced verbatim in the emitted
line of a completed run. -/
theorem C10_first_seen_text_verbatim_witness :
    read_junctions [["chr1\t0100\t200\t+\tGT/AG\t0\t7\t1\t10"]] 50 =
      .ok [("chr1:0100-200:+", ⟨"chr1", "0100", "200", "+", "GT/AG", 7, 1, 10⟩)] ∧
    "chr1\t0100\t200\t+\tGT/AG\t1\t7\t1\t10" ∈
      _write_junctions
        [("chr1:0100-200:+", ⟨"chr1", "0100", "200", "+", "GT/AG", 7, 1, 10⟩)] 5 ∧
    ∃ (k : String) (v first : Junction),
      (k, v) ∈
          ([("chr1:0100-200:+", ⟨"chr1", "0100", "200", "+", "GT/AG", 7, 1, 10⟩)] :
            JunctionHash) ∧
        "chr1\t0100\t200\t+\tGT/AG\t1\t7\t1\t10" = formatLine v ∧
        (keyRecords (acceptedRecords 50
            (([["chr1\t0100\t200\t+\tGT/AG\t0\t7\t1\t10"]] :
              List (List String)).flatten.map pySplit)) k).head? = some first ∧
        v.chr = first.chr ∧ v.start = first.start ∧ v.«end» = first.«end» ∧
        v.strand = first.strand ∧ v.splice_sites = first.splice_sites :=
  ⟨rfl, by decide,
    C10_first_seen_text_verbatim 50 5 _ _ _ rfl (by decide)⟩
